import Mathlib

/-
Verification development for the sales-dashboard client (src/client/script.js).

Modelling conventions for the shallow embedding:
* JS numbers are modelled as exact rationals with NaN adjoined: `Option ℚ`,
  where `none` stands for NaN (the result of `parseFloat` on a non-numeric
  string).  Arithmetic on `none` is absorbing and comparisons involving
  `none` are false, as in JS.
* A record's `total` field stores the string field through the lens of
  `parseFloat`: `some q` for a numeric string denoting `q`, `none` for a
  string `parseFloat` cannot parse.
* A record's `categories` and `product_names` fields are `Option String`,
  `none` standing for an absent (`undefined`) field.
* `new Date(s)` on a date-only string is modelled by `newDateOnlyISO`,
  which accepts exactly the ISO `YYYY-MM-DD` date format (the format
  produced by the `split('/').reverse().join('-')` idiom of the source on
  a well-formed `DD/MM/YYYY` input) and rejects invalid calendar dates.
  A valid date is encoded as the integer `y * 10000 + m * 100 + d`, which
  is order-isomorphic to the millisecond timestamp on date-only values;
  only order comparisons on dates occur in the source.
* JS objects used as accumulators are modelled as association lists in
  insertion order (`Object.keys` / `Object.entries` enumerate string keys
  in insertion order for the non-numeric keys used here).
* DOM writes are modelled as explicit (element id, text) pairs, and the
  category `<select>` as a list of option entries.
-/

namespace Dashboard

/-! ## JS value primitives -/

/-- JS addition on numbers-with-NaN: NaN is absorbing. -/
def jsAdd : Option ℚ → Option ℚ → Option ℚ
  | some a, some b => some (a + b)
  | _, _ => none

/-- JS division, used in the source only with a positive integer divisor.
`none` stands for NaN; division by zero is never reached in the code
(the call is guarded by `totalOrders > 0`). -/
def jsDiv : Option ℚ → Option ℚ → Option ℚ
  | some a, some b => if b = 0 then none else some (a / b)
  | _, _ => none

/-- JS `>` on numbers-with-NaN: any comparison with NaN is false. -/
def jsGtO : Option ℚ → Option ℚ → Bool
  | some a, some b => decide (b < a)
  | _, _ => false

/-- JS `x || 0` applied to a property read (`undefined` or a number):
`undefined`, NaN and `0` are falsy and give `0`. -/
def jsOr0 : Option (Option ℚ) → Option ℚ
  | some (some q) => some q
  | _ => some 0

/-- JS `>=` on `Date` values (`none` = Invalid Date / missing): any
comparison involving an invalid date is false. -/
def jsDateGe : Option Int → Option Int → Bool
  | some a, some b => decide (b ≤ a)
  | _, _ => false

/-- JS `<=` on `Date` values (`none` = Invalid Date / missing). -/
def jsDateLe : Option Int → Option Int → Bool
  | some a, some b => decide (a ≤ b)
  | _, _ => false

/-- JS `===` between a possibly-absent string field and a string:
`undefined === s` is false for every string `s`. -/
def jsStrEqOpt : Option String → String → Bool
  | some c, s => c == s
  | none, _ => false

/-- JS `x || dflt` on a possibly-absent string field: `undefined` and the
empty string are falsy. -/
def jsStrOrDefault : Option String → String → String
  | some c, dflt => if c = "" then dflt else c
  | none, dflt => dflt

/-- Two-digit zero-padded decimal numeral. -/
def pad2 (k : ℕ) : String :=
  if k < 10 then "0" ++ toString k else toString k

/-- `toFixed(2)` on a nonnegative rational: the integer `n` closest to
`x * 100`, ties to the larger, then a decimal point two places in. -/
def toFixed2core (x : ℚ) : String :=
  let n : ℕ := (Rat.floor (x * 100 + 1 / 2)).toNat
  toString (n / 100) ++ "." ++ pad2 (n % 100)

/-- JS `Number.prototype.toFixed(2)`: `"NaN"` on NaN, otherwise sign
followed by the two-decimal rendering of the absolute value. -/
def jsToFixed2 : Option ℚ → String
  | none => "NaN"
  | some q => if q < 0 then "-" ++ toFixed2core (-q) else toFixed2core q

/-! ## Date parsing (`new Date(item.order_date.split('/').reverse().join('-'))`) -/

/-- Split a character list at every occurrence of the separator
(model of `String.prototype.split` with a one-character separator). -/
def splitOnChar (sep : Char) : List Char → List (List Char)
  | [] => [[]]
  | x :: t =>
    match splitOnChar sep t with
    | [] => [[x]]
    | h :: rest => if x = sep then [] :: h :: rest else (x :: h) :: rest

/-- Numeric value of a digit string. -/
def digitsToNat (l : List Char) : ℕ :=
  l.foldl (fun acc c => acc * 10 + (c.toNat - 48)) 0

/-- Parse an exactly `n`-digit decimal field. -/
def parseFixed (l : List Char) (n : ℕ) : Option ℕ :=
  if l.length = n ∧ l.all Char.isDigit then some (digitsToNat l) else none

def isLeapYear (y : ℕ) : Bool :=
  (y % 4 == 0 && y % 100 != 0) || y % 400 == 0

def daysInMonth (y m : ℕ) : ℕ :=
  if m = 2 then (if isLeapYear y then 29 else 28)
  else if m = 4 ∨ m = 6 ∨ m = 9 ∨ m = 11 then 30
  else 31

/-- Order-isomorphic encoding of a calendar date as an integer. -/
def dateCode (y m d : ℕ) : Int :=
  (y : Int) * 10000 + (m : Int) * 100 + (d : Int)

/-- Model of the `Date` constructor on a date-only string: accepts the
ISO `YYYY-MM-DD` format with a valid calendar date, rejects everything
else (Invalid Date, i.e. `none`). -/
def newDateOnlyISO (l : List Char) : Option Int :=
  match splitOnChar '-' l with
  | [y, m, d] =>
    match parseFixed y 4, parseFixed m 2, parseFixed d 2 with
    | some yn, some mn, some dn =>
      if 1 ≤ mn ∧ mn ≤ 12 ∧ 1 ≤ dn ∧ dn ≤ daysInMonth yn mn
      then some (dateCode yn mn dn) else none
    | _, _, _ => none
  | _ => none

/-- The date of a record as the source computes it:
`new Date(item.order_date.split('/').reverse().join('-'))`. -/
def parseOrderDate (s : String) : Option Int :=
  newDateOnlyISO (List.intercalate ['-'] ((splitOnChar '/' s.toList).reverse))

/-! ## The record model -/

/-- One order record as delivered by the `/data` endpoint (see the
modelling conventions above for the `total`, `categories` and
`product_names` fields). -/
structure Record where
  order_id : String
  order_date : String
  customer_id : String
  product_names : Option String
  categories : Option String
  total : Option ℚ
deriving DecidableEq

/-- The grouping key of `updateKeyMetrics`: `item.categories || "Uncategorized"`. -/
def catKey (r : Record) : String :=
  jsStrOrDefault r.categories "Uncategorized"

/-- The grouping key of the top-products chart: `item.product_names || 'Unknown Product'`. -/
def prodKey (r : Record) : String :=
  jsStrOrDefault r.product_names "Unknown Product"

/-! ## JS object accumulator (association list in insertion order) -/

/-- Property read: value of the first (unique) entry with the key. -/
def jsObjGet : List (String × Option ℚ) → String → Option (Option ℚ)
  | [], _ => none
  | p :: t, k => if p.1 = k then some p.2 else jsObjGet t k

/-- Property write: update in place if present, else append (JS objects
keep insertion order for the string keys used here). -/
def jsObjSet : List (String × Option ℚ) → String → Option ℚ → List (String × Option ℚ)
  | [], k, v => [(k, v)]
  | p :: t, k, v => if p.1 = k then (k, v) :: t else p :: jsObjSet t k v

/-- Property read flattened to a JS value: `undefined` and NaN collapse
to `none` (they behave identically under `>` here). -/
def jsObjFlat (m : List (String × Option ℚ)) (k : String) : Option ℚ :=
  (jsObjGet m k).bind id

/-- The reduction `acc[key(item)] = (acc[key(item)] || 0) + parseFloat(item.total)`
over a record collection, starting from the empty object. -/
def jsGroupAdd (key : Record → String) (data : List Record) : List (String × Option ℚ) :=
  data.foldl (fun acc r => jsObjSet acc (key r) (jsAdd (jsOr0 (jsObjGet acc (key r))) r.total)) []

/-! ## Filtering (lines 85-92 of script.js) -/

/-- The filtered subset computed inside `filterAndRenderData`. -/
def filteredData (data : List Record) (startDate endDate : Option Int)
    (selectedCategory : String) : List Record :=
  data.filter (fun item =>
    jsDateGe (parseOrderDate item.order_date) startDate &&
    jsDateLe (parseOrderDate item.order_date) endDate &&
    (selectedCategory == "all" || jsStrEqOpt item.categories selectedCategory))

/-- Spec-side inclusion predicate, written from the claim: the parsed
order date exists and lies in `[startDate, endDate]`, and the category
filter is `"all"` or the record's category field equals the selection. -/
def specIncluded (startDate endDate : Int) (selectedCategory : String) (item : Record) : Bool :=
  (match parseOrderDate item.order_date with
   | some d => decide (startDate ≤ d ∧ d ≤ endDate)
   | none => false) &&
  (selectedCategory == "all" || item.categories == some selectedCategory)

/-! ## Metrics (`updateKeyMetrics`, lines 100-123) -/

/-- `data.reduce((acc, item) => acc + parseFloat(item.total), 0)`. -/
def totalRevenue (data : List Record) : Option ℚ :=
  data.foldl (fun acc r => jsAdd acc r.total) (some 0)

/-- `data.length`. -/
def totalOrders (data : List Record) : ℕ :=
  data.length

/-- `totalOrders > 0 ? totalRevenue / totalOrders : 0`. -/
def averageOrderValue (data : List Record) : Option ℚ :=
  if 0 < totalOrders data
  then jsDiv (totalRevenue data) (some (totalOrders data : ℚ))
  else some 0

/-- The per-category revenue object of `updateKeyMetrics` (lines 106-110). -/
def revenueByCategory (data : List Record) : List (String × Option ℚ) :=
  jsGroupAdd catKey data

/-- One step of `Object.keys(m).reduce((a, b) => m[a] > m[b] ? a : b, "None")`. -/
def pickVal (val : String → Option ℚ) (a b : String) : String :=
  if jsGtO (val a) (val b) then a else b

/-- The top-category reduction of `updateKeyMetrics` (lines 113-116). -/
def topCategory (data : List Record) : String :=
  ((revenueByCategory data).map Prod.fst).foldl
    (pickVal (jsObjFlat (revenueByCategory data))) "None"

/-- The four DOM writes of `updateKeyMetrics` (lines 119-122), in source
order, as (element id, text) pairs. -/
def updateKeyMetrics (data : List Record) : List (String × String) :=
  [("total-revenue", "$" ++ jsToFixed2 (totalRevenue data)),
   ("total-orders", toString (totalOrders data)),
   ("average-order-value", "$" ++ jsToFixed2 (averageOrderValue data)),
   ("top-category", jsStrOrDefault (some (topCategory data)) "None")]

/-! ## Spec-side aggregation functions (written from the claims) -/

/-- Spec-side sum of a list of numbers-with-NaN. -/
def jsSum : List (Option ℚ) → Option ℚ
  | [] => some 0
  | x :: t => jsAdd x (jsSum t)

/-- Spec-side sum of the parsed totals of a record collection. -/
def specSumTotals (data : List Record) : Option ℚ :=
  jsSum (data.map (fun r => r.total))

/-- Spec-side summed revenue of the records with a given grouping key
(totals read through `getD 0`; used only under an all-numeric hypothesis). -/
def specRevenue (key : Record → String) (data : List Record) (c : String) : ℚ :=
  ((data.filter (fun r => key r = c)).map (fun r => (r.total).getD 0)).sum

/-- Spec-side summed revenue of a category (`catKey` grouping). -/
def specCategoryRevenue (data : List Record) (c : String) : ℚ :=
  specRevenue catKey data c

/-- Spec-side summed revenue of a product (`prodKey` grouping). -/
def specProductRevenue (data : List Record) (c : String) : ℚ :=
  specRevenue prodKey data c

/-- First-seen-order deduplication (model of iterating a JS `Set`). -/
def dedupFirstSeen {α : Type} [DecidableEq α] (l : List α) : List α :=
  l.foldl (fun acc x => if x ∈ acc then acc else acc ++ [x]) []

/-- The distinct grouping keys of a collection, in first-seen order. -/
def categoriesOf (data : List Record) : List String :=
  dedupFirstSeen (data.map catKey)

/-- Spec-side argmax with ties broken towards the later element:
the head wins against the best of the tail only when strictly greater. -/
def lastArgmaxO (val : String → Option ℚ) : List String → Option String
  | [] => none
  | k :: t =>
    match lastArgmaxO val t with
    | none => some k
    | some r => some (if jsGtO (val k) (val r) then k else r)

/-- Rational-valued variant of `lastArgmaxO`. -/
def lastArgmaxQ (val : String → ℚ) : List String → Option String
  | [] => none
  | k :: t =>
    match lastArgmaxQ val t with
    | none => some k
    | some r => some (if val r < val k then k else r)

/-! ## Charts (`drawChart`, lines 126-221) -/

/-- `[...new Set(data.map(item => item.categories))]` (line 159): the raw
category field values, first-seen order, no `Uncategorized` fallback. -/
def chartCategories (data : List Record) : List (Option String) :=
  dedupFirstSeen (data.map (fun r => r.categories))

/-- The per-category bars of the `revenueByCategory` chart (lines 160-167):
for each raw category value, the summed revenue of the records whose raw
field `===` it. -/
def revenueByCategoryBars (data : List Record) : List (Option String × Option ℚ) :=
  (chartCategories data).map (fun category =>
    (category,
     (data.filter (fun item => item.categories == category)).foldl
       (fun acc r => jsAdd acc r.total) (some 0)))

/-- The product-revenue object of the `topProducts` chart (lines 190-194). -/
def productRevenue (data : List Record) : List (String × Option ℚ) :=
  jsGroupAdd prodKey data

/-- Insert an entry into a list sorted by descending value, after all
entries it is not strictly greater than (model of a stable sort step). -/
def insertDesc (x : String × Option ℚ) : List (String × Option ℚ) → List (String × Option ℚ)
  | [] => [x]
  | y :: t => if jsGtO x.2 y.2 then x :: y :: t else y :: insertDesc x t

/-- Stable descending sort by value: model of
`.sort((a, b) => b[1] - a[1])` (JS sort is stable, and the comparator is
consistent on the numeric values it is applied to here). -/
def jsSortDesc (l : List (String × Option ℚ)) : List (String × Option ℚ) :=
  l.foldl (fun s x => insertDesc x s) []

/-- `Object.entries(productRevenue).sort((a, b) => b[1] - a[1]).slice(0, 10)`
(lines 196-198). -/
def topProducts (data : List Record) : List (String × Option ℚ) :=
  (jsSortDesc (productRevenue data)).take 10

/-- The chart types with a `case` in the `switch` of `drawChart`. -/
def recognizedChartType (t : String) : Bool :=
  t == "revenueOverTime" || t == "revenueByCategory" || t == "topProducts"

/-- The chart-ownership state: the global `chartInstance` handle, the
identities of the live (constructed, not yet destroyed) chart objects,
and a supply of fresh identities. -/
structure ChartState where
  chartInstance : Option ℕ
  liveCharts : List ℕ
  nextId : ℕ
deriving DecidableEq

/-- Lines 130-132: `if (chartInstance) chartInstance.destroy()`.  The
handle itself is not cleared. -/
def destroyPhase (s : ChartState) : ChartState :=
  match s.chartInstance with
  | some id => { s with liveCharts := s.liveCharts.erase id }
  | none => s

/-- One call of `drawChart` as a transition on the chart-ownership state:
destroy the previous instance if any, then construct a new chart exactly
when the type is recognized (the `switch` has no default case). -/
def drawChartStep (s : ChartState) (chartType : String) : ChartState :=
  if recognizedChartType chartType then
    { chartInstance := some (destroyPhase s).nextId,
      liveCharts := (destroyPhase s).liveCharts ++ [(destroyPhase s).nextId],
      nextId := (destroyPhase s).nextId + 1 }
  else destroyPhase s

/-- No chart exists before the first render. -/
def initialChartState : ChartState := ⟨none, [], 0⟩

/-- The chart-ownership state after a sequence of `drawChart` calls. -/
def runCharts (modes : List String) : ChartState :=
  modes.foldl drawChartStep initialChartState

/-- Ownership invariant: at most one live chart, and the global handle
points at every live chart. -/
def ChartInv (s : ChartState) : Prop :=
  s.liveCharts.length ≤ 1 ∧ ∀ id ∈ s.liveCharts, s.chartInstance = some id

/-! ## Category dropdown (`populateCategoryFilter`, lines 254-263) -/

/-- One `<option>` element of the category select. -/
structure OptionEntry where
  text : String
  value : String
  selected : Bool
deriving DecidableEq

/-- The category select element: its list of option children. -/
structure SelectState where
  options : List OptionEntry
deriving DecidableEq

/-- Stringification a raw category value undergoes in
`new Option(category, category)`: `undefined` renders as `"undefined"`. -/
def optionTextOfCat : Option String → String
  | some s => s
  | none => "undefined"

/-- `new Option(category, category)`: not selected. -/
def optionOfCat (c : Option String) : OptionEntry :=
  ⟨optionTextOfCat c, optionTextOfCat c, false⟩

/-- `new Option('All Categories', 'all', true, true)`. -/
def allCategoriesOption : OptionEntry :=
  ⟨"All Categories", "all", true⟩

/-- `populateCategoryFilter`: clear the select (`innerHTML = ''`), append
the all-categories option, then one option per distinct raw category
value in `Set` iteration (first-seen) order. -/
def populateCategoryFilter (data : List Record) (_sel : SelectState) : SelectState :=
  let cleared : List OptionEntry := []
  let withAll := cleared ++ [allCategoriesOption]
  { options :=
      (dedupFirstSeen (data.map (fun item => item.categories))).foldl
        (fun opts category => opts ++ [optionOfCat category]) withAll }

/-! ## Startup fetch handler (lines 4-33) -/

/-- Outcome of `fetch('/data').then(r => r.json())`: a rejected promise
anywhere in the chain (transport or JSON parse failure), or a parsed
body (`none` modelling a `null`-ish body). -/
inductive FetchOutcome where
  | failure : String → FetchOutcome
  | success : Option (List Record) → FetchOutcome
deriving DecidableEq

/-- Observable effects of the startup handler. -/
structure BootEffects where
  appMessage : Option String
  consoleErrors : List String
  filtersInitialized : Bool
  initialRenderDone : Bool
deriving DecidableEq

/-- The `DOMContentLoaded` handler: `!data || data.length === 0` renders
the no-data message and returns; a rejection is caught, logged and
renders the failure message; otherwise filters are set up and the
dashboard is rendered. -/
def bootHandler : FetchOutcome → BootEffects
  | .failure err =>
    { appMessage := some "Failed to fetch data.",
      consoleErrors := ["Error fetching data: " ++ err],
      filtersInitialized := false,
      initialRenderDone := false }
  | .success none =>
    { appMessage := some "No data available.",
      consoleErrors := [],
      filtersInitialized := false,
      initialRenderDone := false }
  | .success (some data) =>
    if data.length = 0 then
      { appMessage := some "No data available.",
        consoleErrors := [],
        filtersInitialized := false,
        initialRenderDone := false }
    else
      { appMessage := none,
        consoleErrors := [],
        filtersInitialized := true,
        initialRenderDone := true }

/-! ## Concrete record collections used by witnesses and counterexamples -/

/-- The two-record scenario of the spec: totals 50 and 150, categories
`"A"` and `"B"`, January 2024. -/
def exScenario : List Record :=
  [⟨"1", "01/01/2024", "c1", some "Widget", some "A", some 50⟩,
   ⟨"2", "15/01/2024", "c2", some "Gadget", some "B", some 150⟩]

/-- Two categories with exactly equal summed revenue, `"A"` first. -/
def exTie : List Record :=
  [⟨"1", "01/01/2024", "c1", some "Widget", some "A", some 50⟩,
   ⟨"2", "02/01/2024", "c2", some "Gadget", some "B", some 50⟩]

/-- One product with two orders of revenue 30 and 70, and a second
product with revenue 40. -/
def exProducts : List Record :=
  [⟨"1", "01/01/2024", "c1", some "Widget", some "A", some 30⟩,
   ⟨"2", "02/01/2024", "c2", some "Widget", some "A", some 70⟩,
   ⟨"3", "03/01/2024", "c3", some "Gadget", some "B", some 40⟩]

/-- A record with an absent category field. -/
def rNoCat : Record :=
  ⟨"1", "01/01/2024", "c1", some "Widget", none, some 50⟩

/-- A record whose total does not parse as a number. -/
def rBadTotal : Record :=
  ⟨"1", "01/01/2024", "c1", some "Widget", some "A", none⟩

/-- A record whose order date is not a valid calendar date (February 31). -/
def rBadDate : Record :=
  ⟨"1", "31/02/2024", "c1", some "Widget", some "A", some 50⟩

/-- A record with a valid order date. -/
def rGoodDate : Record :=
  ⟨"1", "05/03/2024", "c1", some "Widget", some "A", some 50⟩

/-! ## Helper lemmas -/

theorem jsStrEqOpt_eq_beq (o : Option String) (s : String) :
    jsStrEqOpt o s = (o == some s) := by
  cases o <;> rfl

theorem jsAdd_zero_left (x : Option ℚ) : jsAdd (some 0) x = x := by
  cases x <;> simp [jsAdd]

theorem jsAdd_zero_right (x : Option ℚ) : jsAdd x (some 0) = x := by
  cases x <;> simp [jsAdd]

theorem jsAdd_assoc (a b c : Option ℚ) :
    jsAdd (jsAdd a b) c = jsAdd a (jsAdd b c) := by
  cases a <;> cases b <;> cases c <;> simp [jsAdd, add_assoc]

theorem jsAdd_none_left (x : Option ℚ) : jsAdd none x = none := rfl

theorem jsAdd_none_right (x : Option ℚ) : jsAdd x none = none := by
  cases x <;> rfl

theorem foldl_jsAdd (l : List (Option ℚ)) :
    ∀ acc, l.foldl jsAdd acc = jsAdd acc (jsSum l) := by
  induction l with
  | nil => intro acc; simp [jsSum, jsAdd_zero_right]
  | cons x t ih =>
    intro acc
    simp only [List.foldl_cons, jsSum, ih, jsAdd_assoc]

theorem totalRevenue_eq_specSum (data : List Record) :
    totalRevenue data = specSumTotals data := by
  unfold totalRevenue specSumTotals
  rw [← List.foldl_map (fun r : Record => r.total) jsAdd, foldl_jsAdd, jsAdd_zero_left]

theorem foldl_jsAdd_total_none (l : List Record) :
    ∀ acc, acc = none → l.foldl (fun acc r => jsAdd acc r.total) acc = none := by
  induction l with
  | nil => intro acc h; simpa using h
  | cons x t ih =>
    intro acc h
    subst h
    exact ih _ (jsAdd_none_left _)

theorem foldl_jsAdd_total_none_of_mem (l : List Record) :
    ∀ acc, (∃ r ∈ l, r.total = none) →
      l.foldl (fun acc r => jsAdd acc r.total) acc = none := by
  induction l with
  | nil =>
    rintro acc ⟨r, hr, -⟩
    cases hr
  | cons x t ih =>
    rintro acc ⟨r, hr, hnone⟩
    rw [List.foldl_cons]
    rcases List.mem_cons.mp hr with h1 | h1
    · refine foldl_jsAdd_total_none t _ ?_
      rw [← h1, hnone, jsAdd_none_right]
    · exact ih _ ⟨r, h1, hnone⟩

theorem totalRevenue_none_of_mem (data : List Record)
    (h : ∃ r ∈ data, r.total = none) : totalRevenue data = none :=
  foldl_jsAdd_total_none_of_mem data (some 0) h

theorem mem_foldl_dedup {α : Type} [DecidableEq α] (l : List α) :
    ∀ (acc : List α) (x : α),
      (x ∈ l.foldl (fun acc y => if y ∈ acc then acc else acc ++ [y]) acc) ↔
        x ∈ acc ∨ x ∈ l := by
  induction l with
  | nil => intro acc x; simp
  | cons y t ih =>
    intro acc x
    rw [List.foldl_cons, ih]
    by_cases hy : y ∈ acc
    · simp only [if_pos hy]
      constructor
      · rintro (h | h)
        · exact Or.inl h
        · exact Or.inr (List.mem_cons_of_mem _ h)
      · rintro (h | h)
        · exact Or.inl h
        · rcases List.mem_cons.mp h with h1 | h1
          · exact Or.inl (h1 ▸ hy)
          · exact Or.inr h1
    · simp only [if_neg hy, List.mem_append, List.mem_singleton, List.mem_cons]
      tauto

theorem mem_dedupFirstSeen {α : Type} [DecidableEq α] (l : List α) (x : α) :
    x ∈ dedupFirstSeen l ↔ x ∈ l := by
  unfold dedupFirstSeen
  rw [mem_foldl_dedup]
  simp

theorem nodup_foldl_dedup {α : Type} [DecidableEq α] (l : List α) :
    ∀ (acc : List α), acc.Nodup →
      (l.foldl (fun acc y => if y ∈ acc then acc else acc ++ [y]) acc).Nodup := by
  induction l with
  | nil => intro acc h; simpa using h
  | cons y t ih =>
    intro acc h
    rw [List.foldl_cons]
    by_cases hy : y ∈ acc
    · rw [if_pos hy]; exact ih acc h
    · rw [if_neg hy]
      refine ih _ ?_
      rw [List.nodup_append]
      exact ⟨h, List.nodup_singleton y, fun a ha hb => hy ((List.mem_singleton.mp hb) ▸ ha)⟩

theorem nodup_dedupFirstSeen {α : Type} [DecidableEq α] (l : List α) :
    (dedupFirstSeen l).Nodup :=
  nodup_foldl_dedup l [] List.nodup_nil

theorem foldl_push {α β : Type} (f : α → β) (l : List α) :
    ∀ (init : List β),
      l.foldl (fun acc x => acc ++ [f x]) init = init ++ l.map f := by
  induction l with
  | nil => intro init; simp
  | cons x t ih => intro init; simp [ih]

theorem chartInv_initial : ChartInv initialChartState := by
  constructor
  · simp [initialChartState]
  · intro id hid
    simp [initialChartState] at hid

theorem destroyPhase_liveCharts (s : ChartState) (h : ChartInv s) :
    (destroyPhase s).liveCharts = [] := by
  obtain ⟨hlen, hptr⟩ := h
  have hcases : s.liveCharts = [] ∨ ∃ a, s.liveCharts = [a] := by
    cases hl : s.liveCharts with
    | nil => exact Or.inl rfl
    | cons a t =>
      refine Or.inr ⟨a, ?_⟩
      rw [hl] at hlen
      simp only [List.length_cons] at hlen
      have ht : t = [] := List.eq_nil_of_length_eq_zero (by omega)
      rw [ht]
  rcases hcases with hl | ⟨a, hl⟩
  · unfold destroyPhase
    cases s.chartInstance <;> simp [hl]
  · have ha : s.chartInstance = some a := hptr a (by rw [hl]; exact List.mem_cons_self a [])
    unfold destroyPhase
    rw [ha]
    simp [hl]

theorem chartInv_step (s : ChartState) (h : ChartInv s) (t : String) :
    ChartInv (drawChartStep s t) := by
  have hd := destroyPhase_liveCharts s h
  unfold drawChartStep
  by_cases hr : recognizedChartType t = true
  · rw [if_pos hr]
    refine ⟨?_, ?_⟩
    · simp [hd]
    · intro id hid
      simp only [hd, List.nil_append, List.mem_singleton] at hid
      simp [hid]
  · rw [if_neg hr]
    refine ⟨?_, ?_⟩
    · simp [hd]
    · intro id hid
      rw [hd] at hid
      cases hid

theorem chartInv_foldl (modes : List String) :
    ∀ s, ChartInv s → ChartInv (modes.foldl drawChartStep s) := by
  induction modes with
  | nil => intro s h; exact h
  | cons t rest ih =>
    intro s h
    rw [List.foldl_cons]
    exact ih _ (chartInv_step s h t)

theorem chartInv_run (modes : List String) : ChartInv (runCharts modes) :=
  chartInv_foldl modes initialChartState chartInv_initial

/-! ## Claim theorems -/

/-- C1: for every record collection and every filter state, the filtered
subset of `filterAndRenderData` consists exactly of the records (in
original order, hence a sublist) whose parsed order date lies in
`[startDate, endDate]` and whose category field equals the selected
category unless the selection is `"all"`. -/
theorem filteredData_spec (data : List Record) (st en : Int) (sel : String) :
    filteredData data (some st) (some en) sel = data.filter (specIncluded st en sel) ∧
    (filteredData data (some st) (some en) sel).Sublist data := by
  have hp : (fun item : Record =>
      jsDateGe (parseOrderDate item.order_date) (some st) &&
      jsDateLe (parseOrderDate item.order_date) (some en) &&
      (sel == "all" || jsStrEqOpt item.categories sel)) = specIncluded st en sel := by
    funext item
    unfold specIncluded
    cases h : parseOrderDate item.order_date with
    | none => simp [jsDateGe]
    | some d =>
      rw [jsStrEqOpt_eq_beq]
      simp [jsDateGe, jsDateLe, Bool.decide_and, Bool.and_assoc]
  constructor
  · rw [filteredData, hp]
  · exact List.filter_sublist data

unseal Rat.add Rat.mul Rat.inv in
/-- C2: `updateKeyMetrics` writes the revenue total as the 2-decimal,
`$`-prefixed formatting of the sum of the parsed totals, the order count
as the collection length, the average order value as revenue divided by
count (2-decimal formatted) when the count is positive, and exactly
`"$0.00"` when the count is zero. -/
theorem updateKeyMetrics_spec (data : List Record) :
    (updateKeyMetrics data).lookup "total-revenue" =
      some ("$" ++ jsToFixed2 (specSumTotals data)) ∧
    (updateKeyMetrics data).lookup "total-orders" = some (toString data.length) ∧
    (0 < data.length →
      (updateKeyMetrics data).lookup "average-order-value" =
        some ("$" ++ jsToFixed2 (jsDiv (specSumTotals data) (some (data.length : ℚ))))) ∧
    (data.length = 0 →
      (updateKeyMetrics data).lookup "average-order-value" = some "$0.00") := by
  refine ⟨?_, ?_, ?_, ?_⟩
  · simp [updateKeyMetrics, List.lookup, totalRevenue_eq_specSum]
  · simp [updateKeyMetrics, List.lookup, totalOrders]
  · intro hpos
    have : averageOrderValue data =
        jsDiv (specSumTotals data) (some (data.length : ℚ)) := by
      unfold averageOrderValue
      rw [if_pos (by simpa [totalOrders] using hpos), totalRevenue_eq_specSum]
      rfl
    simp [updateKeyMetrics, List.lookup, this]
  · intro hzero
    have : averageOrderValue data = some 0 := by
      unfold averageOrderValue
      rw [if_neg (by simp [totalOrders, hzero])]
    have hfmt : jsToFixed2 (some 0) = "0.00" := by decide
    simp [updateKeyMetrics, List.lookup, this, hfmt]

unseal Rat.add Rat.mul Rat.inv in
/-- Witness for C2 at the spec's two-record scenario (totals 50 and 150):
the count hypothesis is satisfiable and the average order value renders
as `$100.00`. -/
theorem updateKeyMetrics_spec_witness :
    0 < exScenario.length ∧
    (updateKeyMetrics exScenario).lookup "average-order-value" =
      some ("$" ++ jsToFixed2 (jsDiv (specSumTotals exScenario)
        (some (exScenario.length : ℚ)))) ∧
    (updateKeyMetrics exScenario).lookup "average-order-value" = some "$100.00" :=
  ⟨by decide, (updateKeyMetrics_spec exScenario).2.2.1 (by decide), by decide⟩

/-- C5: `populateCategoryFilter` rebuilds the option list from scratch:
the result is the always-first selected `All Categories`/`all` entry
followed by one option per distinct raw category value in first-seen
order (the distinct list has no duplicates), and invoking it on its own
output yields the same select state as invoking it once. -/
theorem populateCategoryFilter_spec (data : List Record) (sel : SelectState) :
    (populateCategoryFilter data sel).options =
      allCategoriesOption ::
        (dedupFirstSeen (data.map (fun r => r.categories))).map optionOfCat ∧
    (dedupFirstSeen (data.map (fun r => r.categories))).Nodup ∧
    populateCategoryFilter data (populateCategoryFilter data sel) =
      populateCategoryFilter data sel ∧
    allCategoriesOption.value = "all" ∧ allCategoriesOption.selected = true := by
  refine ⟨?_, nodup_dedupFirstSeen _, rfl, rfl, rfl⟩
  show (dedupFirstSeen (data.map (fun r => r.categories))).foldl
      (fun opts category => opts ++ [optionOfCat category]) ([] ++ [allCategoriesOption]) = _
  rw [foldl_push]
  simp

/-- C6: the startup fetch outcome is three-way: a rejection renders the
failed-fetch message and logs the error without initializing anything; a
missing or empty collection renders the no-data message without
initializing anything; a non-empty collection initializes filters and
performs the initial render with no status message. -/
theorem bootHandler_spec :
    (∀ e, bootHandler (.failure e) =
      ⟨some "Failed to fetch data.", ["Error fetching data: " ++ e], false, false⟩) ∧
    bootHandler (.success none) = ⟨some "No data available.", [], false, false⟩ ∧
    bootHandler (.success (some [])) = ⟨some "No data available.", [], false, false⟩ ∧
    (∀ data : List Record, data ≠ [] →
      bootHandler (.success (some data)) = ⟨none, [], true, true⟩) := by
  refine ⟨fun e => rfl, rfl, rfl, fun data h => ?_⟩
  show (if data.length = 0 then _ else _) = _
  rw [if_neg (by simpa [List.length_eq_zero] using h)]

/-- Witness for C6: the non-emptiness hypothesis is satisfiable and the
handler then initializes filters and renders. -/
theorem bootHandler_spec_witness :
    exScenario ≠ [] ∧
    bootHandler (.success (some exScenario)) = ⟨none, [], true, true⟩ :=
  ⟨by decide, bootHandler_spec.2.2.2 exScenario (by decide)⟩

/-- C7: across every sequence of `drawChart` calls, at most one chart
instance is live at any time; the destroy phase of the next call leaves
zero live instances before any construction; and a call with a
recognized chart type leaves exactly one live instance, the freshly
constructed one. -/
theorem drawChart_single_live (modes : List String) :
    (runCharts modes).liveCharts.length ≤ 1 ∧
    (destroyPhase (runCharts modes)).liveCharts = [] ∧
    (∀ t, recognizedChartType t = true →
      (runCharts (modes ++ [t])).liveCharts =
        [(destroyPhase (runCharts modes)).nextId]) := by
  have hinv := chartInv_run modes
  refine ⟨hinv.1, destroyPhase_liveCharts _ hinv, fun t ht => ?_⟩
  have hstep : runCharts (modes ++ [t]) = drawChartStep (runCharts modes) t := by
    unfold runCharts
    rw [List.foldl_append]
    rfl
  rw [hstep]
  unfold drawChartStep
  rw [if_pos ht]
  show (destroyPhase (runCharts modes)).liveCharts ++
      [(destroyPhase (runCharts modes)).nextId] = _
  rw [destroyPhase_liveCharts _ hinv]
  rfl

/-- Witness for C7: a first render with the recognized
`revenueOverTime` type leaves exactly one live chart. -/
theorem drawChart_single_live_witness :
    recognizedChartType "revenueOverTime" = true ∧
    (runCharts (([] : List String) ++ ["revenueOverTime"])).liveCharts =
      [(destroyPhase (runCharts [])).nextId] :=
  ⟨by decide, (drawChart_single_live []).2.2 "revenueOverTime" (by decide)⟩

/-- C9: when some record's total does not parse, `updateKeyMetrics`
still only writes the four metric slots (no user-visible status
message), and the not-a-number propagates into the displayed revenue
total and average order value. -/
theorem nan_propagation (data : List Record)
    (h : ∃ r ∈ data, r.total = none) :
    (updateKeyMetrics data).map Prod.fst =
      ["total-revenue", "total-orders", "average-order-value", "top-category"] ∧
    (updateKeyMetrics data).lookup "total-revenue" = some "$NaN" ∧
    (updateKeyMetrics data).lookup "average-order-value" = some "$NaN" := by
  have hrev : totalRevenue data = none := totalRevenue_none_of_mem data h
  have hpos : 0 < totalOrders data := by
    obtain ⟨r, hr, -⟩ := h
    simpa [totalOrders] using List.length_pos.mpr (List.ne_nil_of_mem hr)
  have havg : averageOrderValue data = none := by
    unfold averageOrderValue
    rw [if_pos hpos, hrev]
    rfl
  exact ⟨rfl, by simp [updateKeyMetrics, List.lookup, hrev, jsToFixed2],
    by simp [updateKeyMetrics, List.lookup, havg, jsToFixed2]⟩

/-- Witness for C9: a one-record collection with an unparsable total
satisfies the hypothesis, and both money metrics display `$NaN`. -/
theorem nan_propagation_witness :
    (∃ r ∈ [rBadTotal], r.total = none) ∧
    (updateKeyMetrics [rBadTotal]).map Prod.fst =
      ["total-revenue", "total-orders", "average-order-value", "top-category"] ∧
    (updateKeyMetrics [rBadTotal]).lookup "total-revenue" = some "$NaN" ∧
    (updateKeyMetrics [rBadTotal]).lookup "average-order-value" = some "$NaN" :=
  ⟨⟨rBadTotal, by decide, rfl⟩, nan_propagation [rBadTotal] ⟨rBadTotal, by decide, rfl⟩⟩

/-- C10: a record whose order-date string does not parse to a valid
calendar date under the `DD/MM/YYYY`-reversal convention is excluded
from the filtered subset for every choice of start date, end date and
category (both date comparisons are false on an invalid date). -/
theorem invalidDate_excluded (data : List Record) (st en : Option Int)
    (sel : String) (r : Record) (h : parseOrderDate r.order_date = none) :
    r ∉ filteredData data st en sel := by
  intro hmem
  have hpred := List.of_mem_filter hmem
  rw [h] at hpred
  cases st <;> simp [jsDateGe] at hpred

/-- Witness for C10: `"31/02/2024"` (February 31) does not parse, and
the record carrying it is excluded even from an all-inclusive filter. -/
theorem invalidDate_excluded_witness :
    parseOrderDate rBadDate.order_date = none ∧
    rBadDate ∉ filteredData [rBadDate] (some (dateCode 2024 1 1))
      (some (dateCode 2024 12 31)) "all" :=
  ⟨by decide,
   invalidDate_excluded [rBadDate] (some (dateCode 2024 1 1))
     (some (dateCode 2024 12 31)) "all" rBadDate (by decide)⟩

unseal Rat.add Rat.mul Rat.inv in
/-- C8 counterexample: the record `rNoCat` has an absent category field,
its order date passes an all-inclusive date range (third conjunct), yet
selecting the category `"Uncategorized"` excludes it (the filter
compares the raw field), the dropdown renders it as an `"undefined"`
option rather than `"Uncategorized"`, while the metrics aggregation
alone books its revenue under `"Uncategorized"`.  So not every
category-consuming operation treats an absent category as
`"Uncategorized"`, contradicting the claim. -/
theorem category_fallback_counterexample :
    rNoCat.categories = none ∧
    filteredData [rNoCat] (some (dateCode 2024 1 1)) (some (dateCode 2024 12 31))
      "Uncategorized" = [] ∧
    filteredData [rNoCat] (some (dateCode 2024 1 1)) (some (dateCode 2024 12 31))
      "all" = [rNoCat] ∧
    (populateCategoryFilter [rNoCat] ⟨[]⟩).options.map (fun o => o.value) =
      ["all", "undefined"] ∧
    jsObjGet (revenueByCategory [rNoCat]) "Uncategorized" = some (some 50) := by
  refine ⟨rfl, by decide, by decide, by decide, by decide⟩

/-- C8 amended: only the per-category revenue aggregation of
`updateKeyMetrics` treats an absent category as `"Uncategorized"`; the
filter's category equality is false against every selected category, the
dropdown option built from the raw value reads `"undefined"`, and the
category chart groups by the raw (absent) value. -/
theorem category_fallback_amended (r : Record) (h : r.categories = none) :
    catKey r = "Uncategorized" ∧
    (∀ sel : String, jsStrEqOpt r.categories sel = false) ∧
    optionTextOfCat r.categories = "undefined" ∧
    (∀ data : List Record, r ∈ data →
      (none : Option String) ∈ chartCategories data) := by
  refine ⟨by rw [catKey, h]; rfl, fun sel => by rw [h]; rfl, by rw [h]; rfl,
    fun data hd => ?_⟩
  unfold chartCategories
  rw [mem_dedupFirstSeen]
  exact List.mem_map.mpr ⟨r, hd, h⟩

/-- Witness for C8's amended claim at the concrete record `rNoCat`. -/
theorem category_fallback_amended_witness :
    rNoCat.categories = none ∧
    (catKey rNoCat = "Uncategorized" ∧
     (∀ sel : String, jsStrEqOpt rNoCat.categories sel = false) ∧
     optionTextOfCat rNoCat.categories = "undefined" ∧
     (∀ data : List Record, rNoCat ∈ data →
       (none : Option String) ∈ chartCategories data)) :=
  ⟨rfl, category_fallback_amended rNoCat rfl⟩

theorem jsObjGet_set_self (m : List (String × Option ℚ)) (k : String) (v : Option ℚ) :
    jsObjGet (jsObjSet m k v) k = some v := by
  induction m with
  | nil => simp [jsObjSet, jsObjGet]
  | cons p t ih =>
    by_cases hp : p.1 = k
    · simp [jsObjSet, hp, jsObjGet]
    · simp [jsObjSet, hp, jsObjGet, ih]

theorem jsObjGet_set_ne (m : List (String × Option ℚ)) (k c : String) (v : Option ℚ)
    (h : c ≠ k) : jsObjGet (jsObjSet m k v) c = jsObjGet m c := by
  induction m with
  | nil => simp [jsObjSet, jsObjGet, Ne.symm h]
  | cons p t ih =>
    by_cases hp : p.1 = k
    · rw [jsObjSet, if_pos hp, jsObjGet, jsObjGet, if_neg (fun he : k = c => h he.symm),
        if_neg (by rw [hp]; exact fun he => h he.symm)]
    · rw [jsObjSet, if_neg hp, jsObjGet, jsObjGet, ih]

theorem jsObjSet_keys (m : List (String × Option ℚ)) (k : String) (v : Option ℚ) :
    (jsObjSet m k v).map Prod.fst =
      if k ∈ m.map Prod.fst then m.map Prod.fst else m.map Prod.fst ++ [k] := by
  induction m with
  | nil => simp [jsObjSet]
  | cons p t ih =>
    by_cases hp : p.1 = k
    · simp [jsObjSet, hp]
    · rw [jsObjSet, if_neg hp, List.map_cons, List.map_cons, ih]
      by_cases hk : k ∈ t.map Prod.fst
      · rw [if_pos hk, if_pos (by exact List.mem_cons_of_mem _ hk)]
      · rw [if_neg hk, if_neg (by
          intro hc
          rcases List.mem_cons.mp hc with hc | hc
          · exact hp hc.symm
          · exact hk hc)]
        rfl

theorem dedupFirstSeen_append_singleton {α : Type} [DecidableEq α] (l : List α) (c : α) :
    dedupFirstSeen (l ++ [c]) =
      if c ∈ dedupFirstSeen l then dedupFirstSeen l else dedupFirstSeen l ++ [c] := by
  unfold dedupFirstSeen
  rw [List.foldl_append]
  rfl

theorem jsGroupAdd_append_singleton (key : Record → String) (xs : List Record) (r : Record) :
    jsGroupAdd key (xs ++ [r]) =
      jsObjSet (jsGroupAdd key xs) (key r)
        (jsAdd (jsOr0 (jsObjGet (jsGroupAdd key xs) (key r))) r.total) := by
  unfold jsGroupAdd
  rw [List.foldl_append]
  rfl

theorem jsGroupAdd_keys (key : Record → String) (data : List Record) :
    (jsGroupAdd key data).map Prod.fst = dedupFirstSeen (data.map key) := by
  induction data using List.reverseRecOn with
  | nil => rfl
  | append_singleton xs r ih =>
    rw [jsGroupAdd_append_singleton, jsObjSet_keys, ih,
      show (xs ++ [r]).map key = xs.map key ++ [key r] by simp,
      dedupFirstSeen_append_singleton]

theorem specRevenue_append_singleton (key : Record → String) (xs : List Record)
    (r : Record) (c : String) :
    specRevenue key (xs ++ [r]) c =
      specRevenue key xs c + (if key r = c then (r.total).getD 0 else 0) := by
  unfold specRevenue
  rw [List.filter_append]
  by_cases h : key r = c
  · simp [h]
  · simp [h]

theorem specRevenue_eq_zero (key : Record → String) (data : List Record) (c : String)
    (h : c ∉ data.map key) : specRevenue key data c = 0 := by
  unfold specRevenue
  have hfil : data.filter (fun r => key r = c) = [] := by
    rw [List.filter_eq_nil_iff]
    intro r hr
    simp only [decide_eq_true_eq]
    intro hc
    exact h (hc ▸ List.mem_map_of_mem key hr)
  rw [hfil]
  rfl

theorem jsGroupAdd_get (key : Record → String) (data : List Record)
    (H : ∀ r ∈ data, (r.total).isSome) (c : String) :
    jsObjGet (jsGroupAdd key data) c =
      if c ∈ data.map key then some (some (specRevenue key data c)) else none := by
  induction data using List.reverseRecOn with
  | nil => simp [jsGroupAdd, jsObjGet]
  | append_singleton xs r ih =>
    have Hxs : ∀ r' ∈ xs, (r'.total).isSome :=
      fun r' hr' => H r' (List.mem_append_left _ hr')
    have Hr : (r.total).isSome := H r (List.mem_append_right _ (by simp))
    obtain ⟨q, hq⟩ := Option.isSome_iff_exists.mp Hr
    have hmapsnoc : (xs ++ [r]).map key = xs.map key ++ [key r] := by simp
    rw [jsGroupAdd_append_singleton]
    by_cases hc : c = key r
    · subst hc
      rw [jsObjGet_set_self, ih Hxs]
      have hmem : key r ∈ (xs ++ [r]).map key := by simp
      rw [if_pos hmem, specRevenue_append_singleton key xs r (key r)]
      by_cases hin : key r ∈ xs.map key
      · rw [if_pos hin]
        simp [jsOr0, jsAdd, hq]
      · rw [if_neg hin, specRevenue_eq_zero key xs (key r) hin]
        simp [jsOr0, jsAdd, hq]
    · rw [jsObjGet_set_ne _ _ _ _ hc, ih Hxs, hmapsnoc]
      have hmm : c ∈ xs.map key ++ [key r] ↔ c ∈ xs.map key := by
        simp [hc]
      by_cases hin : c ∈ xs.map key
      · rw [if_pos hin, if_pos (hmm.mpr hin),
          specRevenue_append_singleton key xs r c,
          if_neg (fun he => hc he.symm)]
        rw [add_zero]
      · rw [if_neg hin, if_neg (fun hx => hin (hmm.mp hx))]

theorem jsGroupAdd_keys_nodup (key : Record → String) (data : List Record) :
    ((jsGroupAdd key data).map Prod.fst).Nodup := by
  rw [jsGroupAdd_keys]
  exact nodup_dedupFirstSeen _

theorem jsObjGet_of_mem (m : List (String × Option ℚ))
    (hnd : (m.map Prod.fst).Nodup) (p : String × Option ℚ) (hp : p ∈ m) :
    jsObjGet m p.1 = some p.2 := by
  induction m with
  | nil => cases hp
  | cons z t ih =>
    rw [List.map_cons] at hnd
    have hnd' := List.nodup_cons.mp hnd
    rcases List.mem_cons.mp hp with h1 | h1
    · rw [h1, jsObjGet, if_pos rfl]
    · have hz : z.1 ≠ p.1 := by
        intro he
        exact hnd'.1 (he ▸ List.mem_map_of_mem Prod.fst h1)
      rw [jsObjGet, if_neg hz]
      exact ih (by simpa using hnd'.2) h1

theorem mem_jsGroupAdd (key : Record → String) (data : List Record)
    (H : ∀ r ∈ data, (r.total).isSome) (p : String × Option ℚ)
    (hp : p ∈ jsGroupAdd key data) :
    p.2 = some (specRevenue key data p.1) ∧ p.1 ∈ data.map key := by
  have hget := jsObjGet_of_mem _ (jsGroupAdd_keys_nodup key data) p hp
  have hkey : p.1 ∈ data.map key := by
    have hm : p.1 ∈ (jsGroupAdd key data).map Prod.fst := List.mem_map_of_mem Prod.fst hp
    rwa [jsGroupAdd_keys, mem_dedupFirstSeen] at hm
  rw [jsGroupAdd_get key data H, if_pos hkey] at hget
  refine ⟨?_, hkey⟩
  injection hget with h
  exact h.symm

theorem jsGtO_irrefl (x : Option ℚ) : jsGtO x x = false := by
  cases x <;> simp [jsGtO]

theorem jsGtO_trans_gt (x y z : Option ℚ) (h1 : jsGtO x y = true)
    (h2 : jsGtO y z = true) : jsGtO x z = true := by
  cases x <;> cases y <;> cases z <;> simp [jsGtO] at h1 h2 ⊢ <;> linarith

theorem jsGtO_notgt_trans (x y z : Option ℚ) (hy : y.isSome) (hz : z.isSome)
    (h1 : jsGtO x y = false) (h2 : jsGtO y z = false) : jsGtO x z = false := by
  cases x <;> cases y <;> cases z <;> simp [jsGtO] at h1 h2 hy hz ⊢ <;> linarith

theorem jsGtO_false_of_gt (x y z : Option ℚ) (h1 : jsGtO x y = false)
    (h2 : jsGtO z y = true) : jsGtO x z = false := by
  cases x <;> cases y <;> cases z <;> simp [jsGtO] at h1 h2 ⊢ <;> linarith

theorem lastArgmaxO_eq_none (val : String → Option ℚ) (l : List String) :
    lastArgmaxO val l = none ↔ l = [] := by
  cases l with
  | nil => simp [lastArgmaxO]
  | cons k t =>
    unfold lastArgmaxO
    cases lastArgmaxO val t <;> simp

theorem lastArgmaxO_mem (val : String → Option ℚ) (l : List String) :
    ∀ r, lastArgmaxO val l = some r → r ∈ l := by
  induction l with
  | nil => intro r h; cases h
  | cons k t ih =>
    intro r h
    unfold lastArgmaxO at h
    cases ht : lastArgmaxO val t with
    | none =>
      rw [ht] at h
      injection h with h
      exact h ▸ List.mem_cons_self k t
    | some r' =>
      rw [ht] at h
      injection h with h
      cases hg : jsGtO (val k) (val r') with
      | true =>
        rw [hg, if_pos rfl] at h
        exact h ▸ List.mem_cons_self k t
      | false =>
        rw [hg] at h
        simp only [Bool.false_eq_true, if_false] at h
        exact List.mem_cons_of_mem k (h ▸ ih r' ht)

theorem lastArgmaxO_max (val : String → Option ℚ) (l : List String)
    (H : ∀ k ∈ l, (val k).isSome) :
    ∀ r, lastArgmaxO val l = some r → ∀ k ∈ l, jsGtO (val k) (val r) = false := by
  induction l with
  | nil => intro r h; cases h
  | cons k0 t ih =>
    intro r h k hk
    have Ht : ∀ k ∈ t, (val k).isSome := fun k hk => H k (List.mem_cons_of_mem _ hk)
    unfold lastArgmaxO at h
    cases ht : lastArgmaxO val t with
    | none =>
      rw [ht] at h
      injection h with h
      have htnil : t = [] := (lastArgmaxO_eq_none val t).mp ht
      rcases List.mem_cons.mp hk with hk | hk
      · rw [hk, ← h, jsGtO_irrefl]
      · rw [htnil] at hk
        cases hk
    | some r' =>
      rw [ht] at h
      injection h with h
      rcases List.mem_cons.mp hk with hk | hk
      · subst hk
        cases hg : jsGtO (val k) (val r') with
        | true => rw [hg, if_pos rfl] at h; rw [← h, jsGtO_irrefl]
        | false =>
          rw [hg] at h
          simp only [Bool.false_eq_true, if_false] at h
          rw [← h]
          exact hg
      · have hk_le := ih Ht r' ht k hk
        cases hg : jsGtO (val k0) (val r') with
        | true =>
          rw [hg, if_pos rfl] at h
          rw [← h]
          exact jsGtO_false_of_gt _ _ _ hk_le hg
        | false =>
          rw [hg] at h
          simp only [Bool.false_eq_true, if_false] at h
          rw [← h]
          exact hk_le

theorem foldl_pickVal (val : String → Option ℚ) (l : List String)
    (H : ∀ k ∈ l, (val k).isSome) :
    ∀ a, l.foldl (pickVal val) a =
      match lastArgmaxO val l with
      | none => a
      | some r => if jsGtO (val a) (val r) then a else r := by
  induction l with
  | nil => intro a; rfl
  | cons b t ih =>
    intro a
    have Ht : ∀ k ∈ t, (val k).isSome := fun k hk => H k (List.mem_cons_of_mem _ hk)
    obtain ⟨qb, hqb⟩ := Option.isSome_iff_exists.mp (H b (List.mem_cons_self b t))
    rw [List.foldl_cons, ih Ht]
    have hunfold : lastArgmaxO val (b :: t) =
        match lastArgmaxO val t with
        | none => some b
        | some r => some (if jsGtO (val b) (val r) then b else r) := rfl
    rw [hunfold]
    cases ht : lastArgmaxO val t with
    | none => rfl
    | some r' =>
      have hr't : r' ∈ t := lastArgmaxO_mem val t r' ht
      have hsb : (val b).isSome := by rw [hqb]; rfl
      have hsr' : (val r').isSome := Ht r' hr't
      cases hab : jsGtO (val a) (val b) with
      | true =>
        cases hbr : jsGtO (val b) (val r') with
        | true =>
          have har : jsGtO (val a) (val r') = true :=
            jsGtO_trans_gt _ _ _ hab hbr
          simp [pickVal, hab, hbr, har]
        | false => simp [pickVal, hab, hbr]
      | false =>
        cases hbr : jsGtO (val b) (val r') with
        | true => simp [pickVal, hab, hbr]
        | false =>
          have har : jsGtO (val a) (val r') = false :=
            jsGtO_notgt_trans _ _ _ hsb hsr' hab hbr
          simp [pickVal, hab, hbr, har]

theorem lastArgmaxQ_mem (val : String → ℚ) (l : List String) :
    ∀ r, lastArgmaxQ val l = some r → r ∈ l := by
  induction l with
  | nil => intro r h; cases h
  | cons k t ih =>
    intro r h
    unfold lastArgmaxQ at h
    cases ht : lastArgmaxQ val t with
    | none =>
      rw [ht] at h
      injection h with h
      exact h ▸ List.mem_cons_self k t
    | some r' =>
      rw [ht] at h
      injection h with h
      by_cases hlt : val r' < val k
      · rw [if_pos hlt] at h
        exact h ▸ List.mem_cons_self k t
      · rw [if_neg hlt] at h
        exact List.mem_cons_of_mem k (h ▸ ih r' ht)

theorem lastArgmaxO_eq_lastArgmaxQ (valO : String → Option ℚ) (valQ : String → ℚ)
    (l : List String) (H : ∀ k ∈ l, valO k = some (valQ k)) :
    lastArgmaxO valO l = lastArgmaxQ valQ l := by
  induction l with
  | nil => rfl
  | cons k t ih =>
    have Ht : ∀ k ∈ t, valO k = some (valQ k) :=
      fun k hk => H k (List.mem_cons_of_mem _ hk)
    have hunfO : lastArgmaxO valO (k :: t) =
        match lastArgmaxO valO t with
        | none => some k
        | some r => some (if jsGtO (valO k) (valO r) then k else r) := rfl
    have hunfQ : lastArgmaxQ valQ (k :: t) =
        match lastArgmaxQ valQ t with
        | none => some k
        | some r => some (if valQ r < valQ k then k else r) := rfl
    rw [hunfO, hunfQ, ih Ht]
    cases hq : lastArgmaxQ valQ t with
    | none => rfl
    | some r =>
      have hrt : r ∈ t := lastArgmaxQ_mem valQ t r hq
      show some (if jsGtO (valO k) (valO r) then k else r) =
        some (if valQ r < valQ k then k else r)
      rw [H k (List.mem_cons_self k t), Ht r hrt]
      by_cases hlt : valQ r < valQ k
      · simp [jsGtO, hlt]
      · simp [jsGtO, hlt]

unseal Rat.add Rat.mul Rat.inv in
/-- C3 counterexample: two categories `"A"` (encountered first) and
`"B"` with exactly equal summed revenue (50 each); the code's top
category is `"B"`, the last-encountered maximum, not the
first-encountered one the claim requires. -/
theorem topCategory_counterexample :
    topCategory exTie = "B" ∧
    specCategoryRevenue exTie "A" = specCategoryRevenue exTie "B" ∧
    exTie.map catKey = ["A", "B"] := by
  refine ⟨by decide, by decide, by decide⟩

/-- C3 (amended): with all totals numeric, the top category of an empty
collection is `"None"`; otherwise it is a category of the collection
whose summed revenue is maximal, and among equal-revenue categories the
LAST-encountered one in iteration order is chosen (`lastArgmaxQ` breaks
ties towards the later element). -/
theorem topCategory_spec (data : List Record) (H : ∀ r ∈ data, (r.total).isSome) :
    (data = [] → topCategory data = "None") ∧
    (data ≠ [] →
      topCategory data ∈ categoriesOf data ∧
      (∀ c ∈ categoriesOf data,
        specCategoryRevenue data c ≤ specCategoryRevenue data (topCategory data)) ∧
      lastArgmaxQ (specCategoryRevenue data) (categoriesOf data) =
        some (topCategory data)) := by
  constructor
  · intro h; subst h; rfl
  · intro hne
    have hkeys : (revenueByCategory data).map Prod.fst = categoriesOf data :=
      jsGroupAdd_keys catKey data
    have hvs : ∀ k ∈ categoriesOf data,
        jsObjFlat (revenueByCategory data) k = some (specCategoryRevenue data k) := by
      intro k hk
      have hk' : k ∈ data.map catKey := (mem_dedupFirstSeen _ _).mp hk
      unfold jsObjFlat
      rw [show revenueByCategory data = jsGroupAdd catKey data from rfl,
        jsGroupAdd_get catKey data H, if_pos hk']
      rfl
    have hsome : ∀ k ∈ categoriesOf data,
        (jsObjFlat (revenueByCategory data) k).isSome :=
      fun k hk => by rw [hvs k hk]; rfl
    have hKne : categoriesOf data ≠ [] := by
      cases data with
      | nil => exact absurd rfl hne
      | cons d t =>
        exact List.ne_nil_of_mem ((mem_dedupFirstSeen _ _).mpr
          (List.mem_map_of_mem catKey (List.mem_cons_self d t)))
    have htop : topCategory data =
        (categoriesOf data).foldl (pickVal (jsObjFlat (revenueByCategory data))) "None" := by
      unfold topCategory
      rw [hkeys]
    cases hlast : lastArgmaxO (jsObjFlat (revenueByCategory data)) (categoriesOf data) with
    | none => exact absurd ((lastArgmaxO_eq_none _ _).mp hlast) hKne
    | some r =>
      have hfold := foldl_pickVal _ (categoriesOf data) hsome "None"
      rw [hlast] at hfold
      have hnone_gt : jsGtO (jsObjFlat (revenueByCategory data) "None")
          (jsObjFlat (revenueByCategory data) r) = false := by
        by_cases hN : "None" ∈ categoriesOf data
        · exact lastArgmaxO_max _ _ hsome r hlast "None" hN
        · have hflat : jsObjFlat (revenueByCategory data) "None" = none := by
            unfold jsObjFlat
            rw [show revenueByCategory data = jsGroupAdd catKey data from rfl,
              jsGroupAdd_get catKey data H,
              if_neg (fun hx => hN ((mem_dedupFirstSeen _ _).mpr hx))]
            rfl
          rw [hflat]
          cases jsObjFlat (revenueByCategory data) r <;> rfl
      have htop_r : topCategory data = r := by
        rw [htop, hfold]
        simp [hnone_gt]
      have hrmem : r ∈ categoriesOf data := lastArgmaxO_mem _ _ r hlast
      refine ⟨by rw [htop_r]; exact hrmem, ?_, ?_⟩
      · intro c hc
        have hgt := lastArgmaxO_max _ _ hsome r hlast c hc
        rw [htop_r]
        rw [hvs c hc, hvs r hrmem] at hgt
        simp only [jsGtO, decide_eq_false_iff_not, not_lt] at hgt
        exact hgt
      · rw [htop_r,
          ← lastArgmaxO_eq_lastArgmaxQ (jsObjFlat (revenueByCategory data))
            (specCategoryRevenue data) (categoriesOf data) hvs]
        exact hlast

unseal Rat.add Rat.mul Rat.inv in
/-- Witness for C3's amended claim on the equal-revenue two-category
collection: the numeric-totals hypothesis holds and the conclusion
instantiates, the chosen category being the last-encountered `"B"`. -/
theorem topCategory_spec_witness :
    (∀ r ∈ exTie, (r.total).isSome) ∧
    ((exTie = [] → topCategory exTie = "None") ∧
     (exTie ≠ [] →
       topCategory exTie ∈ categoriesOf exTie ∧
       (∀ c ∈ categoriesOf exTie,
         specCategoryRevenue exTie c ≤ specCategoryRevenue exTie (topCategory exTie)) ∧
       lastArgmaxQ (specCategoryRevenue exTie) (categoriesOf exTie) =
         some (topCategory exTie))) :=
  ⟨by decide, topCategory_spec exTie (by decide)⟩

theorem mem_insertDesc (x : String × Option ℚ) (l : List (String × Option ℚ))
    (y : String × Option ℚ) : y ∈ insertDesc x l ↔ y ∈ x :: l := by
  induction l with
  | nil => simp [insertDesc]
  | cons z t ih =>
    unfold insertDesc
    by_cases hg : jsGtO x.2 z.2 = true
    · rw [if_pos hg]
    · rw [if_neg hg]
      simp only [List.mem_cons, ih]
      tauto

theorem insertDesc_perm (x : String × Option ℚ) (l : List (String × Option ℚ)) :
    (insertDesc x l).Perm (x :: l) := by
  induction l with
  | nil => exact List.Perm.refl _
  | cons z t ih =>
    unfold insertDesc
    by_cases hg : jsGtO x.2 z.2 = true
    · rw [if_pos hg]
    · rw [if_neg hg]
      exact (ih.cons z).trans (List.Perm.swap x z t)

theorem foldl_insertDesc_perm (l : List (String × Option ℚ)) :
    ∀ acc, (l.foldl (fun s x => insertDesc x s) acc).Perm (acc ++ l) := by
  induction l with
  | nil => intro acc; simp
  | cons x t ih =>
    intro acc
    rw [List.foldl_cons]
    refine ((ih (insertDesc x acc)).trans ?_)
    refine (((insertDesc_perm x acc).append_right t).trans ?_)
    show (x :: (acc ++ t)).Perm (acc ++ x :: t)
    exact List.perm_middle.symm

theorem jsSortDesc_perm (l : List (String × Option ℚ)) : (jsSortDesc l).Perm l := by
  have h := foldl_insertDesc_perm l []
  simpa [jsSortDesc] using h

theorem pairwise_insertDesc (x : String × Option ℚ) (l : List (String × Option ℚ))
    (hx : x.2.isSome) (hl : ∀ p ∈ l, (p : String × Option ℚ).2.isSome)
    (h : l.Pairwise (fun a b => jsGtO b.2 a.2 = false)) :
    (insertDesc x l).Pairwise (fun a b => jsGtO b.2 a.2 = false) := by
  induction l with
  | nil => simp [insertDesc]
  | cons z t ih =>
    obtain ⟨hz_rel, hpt⟩ := List.pairwise_cons.mp h
    have hzs : z.2.isSome := hl z (List.mem_cons_self z t)
    unfold insertDesc
    by_cases hg : jsGtO x.2 z.2 = true
    · rw [if_pos hg]
      refine List.pairwise_cons.mpr ⟨?_, h⟩
      intro b hb
      rcases List.mem_cons.mp hb with hb | hb
      · subst hb
        obtain ⟨qx, hqx⟩ := Option.isSome_iff_exists.mp hx
        obtain ⟨qb, hqb⟩ := Option.isSome_iff_exists.mp hzs
        rw [hqx, hqb] at hg ⊢
        simp only [jsGtO, decide_eq_true_eq] at hg
        simp only [jsGtO, decide_eq_false_iff_not, not_lt]
        linarith
      · exact jsGtO_false_of_gt _ _ _ (hz_rel b hb) hg
    · rw [if_neg hg]
      refine List.pairwise_cons.mpr
        ⟨?_, ih (fun p hp => hl p (List.mem_cons_of_mem _ hp)) hpt⟩
      intro b hb
      rcases List.mem_cons.mp ((mem_insertDesc x t b).mp hb) with hb | hb
      · subst hb
        exact Bool.not_eq_true _ ▸ (Bool.eq_false_iff.mpr hg)
      · exact hz_rel b hb

theorem pairwise_foldl_insertDesc (l : List (String × Option ℚ)) :
    ∀ acc, (∀ p ∈ l, (p : String × Option ℚ).2.isSome) →
      (∀ p ∈ acc, (p : String × Option ℚ).2.isSome) →
      acc.Pairwise (fun a b => jsGtO b.2 a.2 = false) →
      (l.foldl (fun s x => insertDesc x s) acc).Pairwise
        (fun a b => jsGtO b.2 a.2 = false) := by
  induction l with
  | nil => intro acc _ _ hacc; exact hacc
  | cons x t ih =>
    intro acc hl hacc hpw
    rw [List.foldl_cons]
    have hxs : x.2.isSome := hl x (List.mem_cons_self x t)
    refine ih _ (fun p hp => hl p (List.mem_cons_of_mem _ hp)) ?_
      (pairwise_insertDesc x acc hxs hacc hpw)
    intro p hp
    rcases List.mem_cons.mp ((mem_insertDesc x acc p).mp hp) with hp | hp
    · exact hp ▸ hxs
    · exact hacc p hp

theorem jsSortDesc_pairwise (l : List (String × Option ℚ))
    (H : ∀ p ∈ l, (p : String × Option ℚ).2.isSome) :
    (jsSortDesc l).Pairwise (fun a b => jsGtO b.2 a.2 = false) :=
  pairwise_foldl_insertDesc l [] H (fun p hp => absurd hp (List.not_mem_nil p))
    List.Pairwise.nil

/-- C4: the top-products list first aggregates revenue per product name
over the whole collection (each entry's value is the summed revenue of
its product), is sorted by non-increasing summed revenue, and is
truncated to at most 10 entries. -/
theorem topProducts_spec (data : List Record) (H : ∀ r ∈ data, (r.total).isSome) :
    (topProducts data).length ≤ 10 ∧
    (topProducts data).Pairwise
      (fun a b => specProductRevenue data b.1 ≤ specProductRevenue data a.1) ∧
    (∀ p ∈ topProducts data,
      p.2 = some (specProductRevenue data p.1) ∧ p.1 ∈ data.map prodKey) := by
  have hentry : ∀ p ∈ productRevenue data,
      (p : String × Option ℚ).2 = some (specProductRevenue data p.1) ∧
        p.1 ∈ data.map prodKey :=
    fun p hp => mem_jsGroupAdd prodKey data H p hp
  have hsome : ∀ p ∈ productRevenue data, (p : String × Option ℚ).2.isSome :=
    fun p hp => by rw [(hentry p hp).1]; rfl
  have hmem_top : ∀ p ∈ topProducts data, p ∈ productRevenue data := by
    intro p hp
    have hsort : p ∈ jsSortDesc (productRevenue data) :=
      (List.take_sublist 10 _).mem hp
    exact (jsSortDesc_perm (productRevenue data)).mem_iff.mp hsort
  refine ⟨?_, ?_, fun p hp => hentry p (hmem_top p hp)⟩
  · simp [topProducts, List.length_take]
  · have hpw : (jsSortDesc (productRevenue data)).Pairwise
        (fun a b => jsGtO b.2 a.2 = false) :=
      jsSortDesc_pairwise _ hsome
    have hpw10 : (topProducts data).Pairwise (fun a b => jsGtO b.2 a.2 = false) :=
      hpw.sublist (List.take_sublist 10 _)
    refine List.Pairwise.imp_of_mem ?_ hpw10
    intro a b ha hb hab
    have ha2 := (hentry a (hmem_top a ha)).1
    have hb2 := (hentry b (hmem_top b hb)).1
    rw [ha2, hb2] at hab
    simpa [jsGtO, not_lt] using hab

unseal Rat.add Rat.mul Rat.inv in
/-- Witness for C4: a product with orders of revenue 30 and 70
aggregates to 100 before ranking; the hypothesis holds, the conclusion
instantiates, and the list evaluates to the aggregated, sorted,
truncated value. -/
theorem topProducts_spec_witness :
    (∀ r ∈ exProducts, (r.total).isSome) ∧
    ((topProducts exProducts).length ≤ 10 ∧
     (topProducts exProducts).Pairwise
       (fun a b => specProductRevenue exProducts b.1 ≤ specProductRevenue exProducts a.1) ∧
     (∀ p ∈ topProducts exProducts,
       p.2 = some (specProductRevenue exProducts p.1) ∧
         p.1 ∈ exProducts.map prodKey)) ∧
    topProducts exProducts = [("Widget", some 100), ("Gadget", some 40)] :=
  ⟨by decide, topProducts_spec exProducts (by decide), by decide⟩

end Dashboard
